import Mathlib

/-!
Verification of the log-dashboard core (src/app.py): the line parser
(main script, lines 34-63), the compressed-events loop of the appended
backup script (lines 450-491), and the alerts-table grouping loop of the
main script (lines 274-287).

Strings are processed through executable character-list operations that
mirror the Python string methods used by the source (`str.strip`,
`str.split`, `str.rstrip`, `in`, `str.isdigit`, `re.search`).
`datetime.strptime(s, "%Y-%m-%d %H:%M:%S")` is modelled as a strict
fixed-width parse of a valid calendar date-time, which is the reading the
specification gives it.  Fallible Python code (a `try`/`except` that skips
a line, an uncaught exception in the alerts loop) is modelled with
`Option`.
-/

/-- Characters stripped by Python `str.strip()` on the ASCII text handled here. -/
def trimL (l : List Char) : List Char :=
  ((l.dropWhile Char.isWhitespace).reverse.dropWhile Char.isWhitespace).reverse

/-- Python `str.strip()`. -/
def trimS (s : String) : String := ⟨trimL s.data⟩

/-- Worker for `splitOnL`; the fuel argument only makes the recursion
structural and is always ample (one unit per consumed character). -/
def splitOnAuxL (sep : List Char) : Nat → List Char → List Char → List (List Char)
  | _, acc, [] => [acc.reverse]
  | 0, acc, rem => [acc.reverse ++ rem]
  | Nat.succ fuel, acc, c :: rest =>
    if sep.isPrefixOf (c :: rest) then
      acc.reverse :: splitOnAuxL sep fuel [] (List.drop sep.length (c :: rest))
    else
      splitOnAuxL sep fuel (c :: acc) rest

/-- Python `s.split(sep)` for a non-empty separator (left-to-right,
non-overlapping; a match at the end contributes a trailing empty piece). -/
def splitOnL (s sep : List Char) : List (List Char) :=
  if sep.isEmpty then [s] else splitOnAuxL sep (s.length + 1) [] s

/-- Python `s.split(sep)` on `String`. -/
def splitOnS (s sep : String) : List String := (splitOnL s.data sep.data).map String.mk

/-- Python `pat in s` for the non-empty patterns used by the source:
a pattern occurs exactly when splitting on it yields more than one piece. -/
def containsS (s pat : String) : Bool := (splitOnS s pat).length != 1

/-- Python `split(...)[-1]`: the last piece (split results are never empty). -/
def lastS (l : List String) : String := l.getLastD ""

/-- Python `s.rstrip('%')`: drop every trailing `%`. -/
def rstripPct (s : String) : String :=
  ⟨(s.data.reverse.dropWhile (fun c => c == '%')).reverse⟩

/-- Numeric value of a string of decimal digits (Python `int` on an
`isdigit` string). -/
def digitsToNat (l : List Char) : Nat :=
  l.foldl (fun n c => n * 10 + (c.toNat - '0'.toNat)) 0

/-- Python `' '.join`. -/
def joinSpace : List String → String
  | [] => ""
  | [s] => s
  | s :: rest => s ++ " " ++ joinSpace rest

/-- `re.search(r'#ID:(\d{6})-\d{6}', line)`: scan left to right for the
literal `#ID:`, six digits, `-`, six digits, and capture the first six
digits; on a failed attempt advance one character, as `re.search` does. -/
def idScan : List Char → Option String
  | '#' :: 'I' :: 'D' :: ':' :: a :: b :: c :: d :: e :: f :: '-' ::
      g :: h :: i :: j :: k :: l :: rest =>
    if ([a, b, c, d, e, f].all Char.isDigit && [g, h, i, j, k, l].all Char.isDigit) then
      some ⟨[a, b, c, d, e, f]⟩
    else
      idScan ('I' :: 'D' :: ':' :: a :: b :: c :: d :: e :: f :: '-' ::
        g :: h :: i :: j :: k :: l :: rest)
  | _ :: rest => idScan rest
  | [] => none

/-- `re.search(r'(\d{6})', filename)`: first run of six consecutive digits. -/
def sixDigitScan : List Char → Option String
  | a :: b :: c :: d :: e :: f :: rest =>
    if [a, b, c, d, e, f].all Char.isDigit then some ⟨[a, b, c, d, e, f]⟩
    else sixDigitScan (b :: c :: d :: e :: f :: rest)
  | _ => none

/-- The parsed `datetime` value (only the fields the format string sets). -/
structure DateTime where
  year : Nat
  month : Nat
  day : Nat
  hour : Nat
  minute : Nat
  second : Nat
deriving DecidableEq, Repr

def isLeapYear (y : Nat) : Bool := y % 4 == 0 && (y % 100 != 0 || y % 400 == 0)

def daysInMonth (y m : Nat) : Nat :=
  if m = 2 then (if isLeapYear y then 29 else 28)
  else if m = 4 ∨ m = 6 ∨ m = 9 ∨ m = 11 then 30
  else 31

def digitVal (c : Char) : Nat := c.toNat - '0'.toNat

/-- `datetime.strptime(s, '%Y-%m-%d %H:%M:%S')`, modelled as the strict
fixed-width pattern with calendar validation (month 1-12, day bounded by
the month length, 24-hour clock, `datetime` year at least 1). -/
def parseTimestamp (s : String) : Option DateTime :=
  match s.data with
  | [y1, y2, y3, y4, '-', m1, m2, '-', d1, d2, ' ', h1, h2, ':', n1, n2, ':', s1, s2] =>
    if [y1, y2, y3, y4, m1, m2, d1, d2, h1, h2, n1, n2, s1, s2].all Char.isDigit then
      let y := digitVal y1 * 1000 + digitVal y2 * 100 + digitVal y3 * 10 + digitVal y4
      let mo := digitVal m1 * 10 + digitVal m2
      let d := digitVal d1 * 10 + digitVal d2
      let h := digitVal h1 * 10 + digitVal h2
      let mi := digitVal n1 * 10 + digitVal n2
      let se := digitVal s1 * 10 + digitVal s2
      if 1 ≤ y ∧ 1 ≤ mo ∧ mo ≤ 12 ∧ 1 ≤ d ∧ d ≤ daysInMonth y mo ∧
          h ≤ 23 ∧ mi ≤ 59 ∧ se ≤ 59 then
        some ⟨y, mo, d, h, mi, se⟩
      else none
    else none
  | _ => none

/-- One parsed log entry (the dict appended to `all_data`, lines 57-63). -/
structure EventRecord where
  timestamp : DateTime
  event : String
  normalized_event : String
  battery : Option Nat
  camera : String
deriving DecidableEq, Repr

/-- `parts[0].strip()` of the `#`-split of the (stripped) line. -/
def tsStrOf (l : String) : String := trimS (splitOnS l "#").headI

/-- `[p.strip() for p in parts[2:] if p.strip()]` (line 41). -/
def eventPartsOf (l : String) : List String :=
  (((splitOnS l "#").drop 2).map trimS).filter (fun p => !p.data.isEmpty)

/-- `' '.join(event_parts) if event_parts else 'Unknown'` (line 42). -/
def fullEventOf (l : String) : String :=
  if (eventPartsOf l).isEmpty then "Unknown" else joinSpace (eventPartsOf l)

/-- Line 44: strip a trailing `' - Battery Level - N%'` annotation. -/
def normalizeEvent (e : String) : String :=
  if containsS e " - Battery Level - " then trimS (splitOnS e " - Battery Level - ").headI
  else e

/-- `full_event.split('Battery Level -')[-1].strip().rstrip('%').strip()` (line 50). -/
def batStrOf (e : String) : String :=
  trimS (rstripPct (trimS (lastS (splitOnS e "Battery Level -"))))

/-- Lines 48-51: the optional battery reading of a parsed event. -/
def batteryOf (e : String) : Option Nat :=
  if containsS e "Battery Level -" then
    if (batStrOf e).data ≠ [] ∧ (batStrOf e).data.all Char.isDigit then
      some (digitsToNat (batStrOf e).data)
    else none
  else none

/-- Lines 31-32 and 53-54: camera id from the `#ID:` field, else from the
filename, else `"Unknown"`. -/
def cameraOf (l filename : String) : String :=
  (idScan l.data).getD ((sixDigitScan filename.data).getD "Unknown")

/-- The per-line body of the parsing loop (lines 34-63): `none` models both
the explicit `continue` for blank or `#`-less lines and the `except:
continue` that swallows any per-line exception (in the source only the
timestamp parse can raise). -/
def parseLine (line filename : String) : Option EventRecord :=
  if (trimS line).data.isEmpty || !((trimS line).data.contains '#') then none
  else
    match parseTimestamp (tsStrOf (trimS line)) with
    | none => none
    | some dt =>
      some ⟨dt, fullEventOf (trimS line),
        normalizeEvent (fullEventOf (trimS line)),
        batteryOf (fullEventOf (trimS line)),
        cameraOf (trimS line) filename⟩

/-- The whole parsing loop over one file's lines: unparsable lines
contribute nothing and do not stop the loop. -/
def parseLines (lines : List String) (filename : String) : List EventRecord :=
  lines.filterMap (fun l => parseLine l filename)

/-- `all_data` accumulated over every uploaded file (lines 24-63). -/
def parseFiles (files : List (List String × String)) : List EventRecord :=
  (files.map (fun p => parseLines p.1 p.2)).flatten

/-!
The compressed-events loop (backup script, lines 450-491).  Its input rows
carry a timestamp, the full event text and an optional battery value; the
loop never does timestamp arithmetic, so a timestamp is modelled as a
number (seconds).  That parser's battery comes from a bare `int(...)`, so
the battery is an integer.
-/

/-- One row of the backup script's dataframe as the loop reads it. -/
structure CRec where
  ts : Nat
  event : String
  battery : Option Int
deriving DecidableEq, Repr

/-- The open group's state (lines 451-455 and 476-480), enriched with the
`members` field that records which rows the run absorbed; the source keeps
that information only implicitly, and the specification's claims are about
it. -/
structure CGroup where
  currentEvent : String
  startTime : Nat
  startBattery : Option Int
  endTime : Nat
  endBattery : Option Int
  members : List CRec
deriving DecidableEq, Repr

/-- Open a group from a row (lines 451-455 / 476-480). -/
def openG (r : CRec) : CGroup := ⟨r.event, r.ts, r.battery, r.ts, r.battery, [r]⟩

/-- Extend the open group (lines 460-463): move `end_time`, and overwrite
`end_battery` only when the row has a battery reading. -/
def extendG (g : CGroup) (r : CRec) : CGroup :=
  { g with
    endTime := r.ts
    endBattery := if r.battery.isSome then r.battery else g.endBattery
    members := g.members ++ [r] }

/-- Lines 466-468 and 483-485: the `Battery Level` cell of an emitted row,
from the group's `start_battery` and `end_battery`.  (The source would also
overwrite `"N/A"` when `end_battery` is present while `start_battery` is
absent, reaching `int(nan)`; that state never arises from the loop, whose
extension step keeps battery presence constant inside a run.) -/
def emitRange : Option Int → Option Int → String
  | some s, some e => if e ≠ s then toString s ++ "% - " ++ toString e ++ "%"
                      else toString s ++ "%"
  | some s, none => toString s ++ "%"
  | none, _ => "N/A"

/-- One emitted row of the Compressed Events table (lines 469-474). -/
structure IRec where
  startTime : Nat
  endTime : Nat
  event : String
  batteryLevel : String
deriving DecidableEq, Repr

def emitG (g : CGroup) : IRec := ⟨g.startTime, g.endTime, g.currentEvent, emitRange g.startBattery g.endBattery⟩

/-- The loop of lines 457-480 followed by the final flush of lines 482-491:
a row extends the open group exactly when its event text equals
`current_event` and its battery presence equals that of `start_battery`. -/
def compressLoop (g : CGroup) : List CRec → List CGroup
  | [] => [g]
  | r :: rest =>
    if r.event = g.currentEvent ∧ r.battery.isSome = g.startBattery.isSome then
      compressLoop (extendG g r) rest
    else
      g :: compressLoop (openG r) rest

/-- Lines 449-491: the groups the loop closes, in emission order;
an empty input emits nothing. -/
def compressGroups : List CRec → List CGroup
  | [] => []
  | r :: rest => compressLoop (openG r) rest

/-- The Compressed Events table itself. -/
def compress (l : List CRec) : List IRec := (compressGroups l).map emitG

/-- The grouping key the loop actually compares: full event text and
battery presence. -/
def keyOf (g : CGroup) : String × Bool := (g.currentEvent, g.startBattery.isSome)

/-- State invariant tying the group's scalar fields to its member run. -/
def WF (g : CGroup) : Prop :=
  ∃ h t, g.members = h :: t ∧
    g.currentEvent = h.event ∧
    g.startTime = h.ts ∧
    g.startBattery = h.battery ∧
    g.members.getLast?.map CRec.ts = some g.endTime ∧
    (g.members.filterMap CRec.battery).getLast? = g.endBattery ∧
    ∀ r ∈ g.members, r.event = h.event ∧ r.battery.isSome = h.battery.isSome

lemma wf_open (r : CRec) : WF (openG r) := by
  refine ⟨r, [], rfl, rfl, rfl, rfl, rfl, ?_, ?_⟩
  · cases hb : r.battery <;> simp [openG, hb]
  · intro x hx
    simp only [openG, List.mem_singleton] at hx
    subst hx; exact ⟨rfl, rfl⟩

lemma wf_extend (g : CGroup) (r : CRec) (hg : WF g)
    (hk : r.event = g.currentEvent ∧ r.battery.isSome = g.startBattery.isSome) :
    WF (extendG g r) := by
  obtain ⟨h, t, hm, hev, hst, hsb, _, heb, hom⟩ := hg
  refine ⟨h, t ++ [r], ?_, hev, hst, hsb, ?_, ?_, ?_⟩
  · simp [extendG, hm]
  · simp [extendG, List.getLast?_concat]
  · cases hb : r.battery with
    | some v =>
      simp [extendG, List.filterMap_append, hb, List.getLast?_concat]
    | none =>
      simp only [extendG, List.filterMap_append, hb]
      simpa [hb] using heb
  · intro x hx
    simp only [extendG, List.mem_append, List.mem_singleton] at hx
    rcases hx with hx | hx
    · exact hom x hx
    · subst hx
      refine ⟨by rw [hk.1, hev], by rw [hk.2, hsb]⟩

lemma compressLoop_wf : ∀ (rest : List CRec) (g : CGroup), WF g →
    ∀ g' ∈ compressLoop g rest, WF g' := by
  intro rest
  induction rest with
  | nil =>
    intro g hg g' hmem
    simp only [compressLoop, List.mem_singleton] at hmem
    subst hmem; exact hg
  | cons r rest ih =>
    intro g hg g' hmem
    simp only [compressLoop] at hmem
    split at hmem
    · exact ih (extendG g r) (wf_extend g r hg (by assumption)) g' hmem
    · rcases List.mem_cons.mp hmem with h1 | h2
      · subst h1; exact hg
      · exact ih (openG r) (wf_open r) g' h2

lemma compressGroups_wf (l : List CRec) : ∀ g ∈ compressGroups l, WF g := by
  cases l with
  | nil => intro g hg; simp [compressGroups] at hg
  | cons r rest => exact compressLoop_wf rest (openG r) (wf_open r)

lemma compressLoop_flatten : ∀ (rest : List CRec) (g : CGroup),
    ((compressLoop g rest).map CGroup.members).flatten = g.members ++ rest := by
  intro rest
  induction rest with
  | nil => intro g; simp [compressLoop]
  | cons r rest ih =>
    intro g
    simp only [compressLoop]
    split
    · rw [ih (extendG g r)]
      simp [extendG]
    · simp only [List.map_cons, List.flatten_cons, ih (openG r)]
      simp [openG]

lemma compressGroups_flatten (l : List CRec) :
    ((compressGroups l).map CGroup.members).flatten = l := by
  cases l with
  | nil => simp [compressGroups]
  | cons r rest =>
    simp only [compressGroups, compressLoop_flatten rest (openG r)]
    simp [openG]

lemma compressLoop_ne_nil (rest : List CRec) (g : CGroup) :
    compressLoop g rest ≠ [] := by
  induction rest generalizing g with
  | nil => simp [compressLoop]
  | cons r rest ih =>
    simp only [compressLoop]
    split
    · exact ih (extendG g r)
    · simp

lemma compressLoop_head_key : ∀ (rest : List CRec) (g h : CGroup),
    (compressLoop g rest).head? = some h → keyOf h = keyOf g := by
  intro rest
  induction rest with
  | nil =>
    intro g h hh
    simp only [compressLoop, List.head?_cons, Option.some.injEq] at hh
    subst hh; rfl
  | cons r rest ih =>
    intro g h hh
    simp only [compressLoop] at hh
    split at hh
    · have := ih (extendG g r) h hh
      rw [this]; rfl
    · simp only [List.head?_cons, Option.some.injEq] at hh
      subst hh; rfl

lemma compressLoop_chain : ∀ (rest : List CRec) (g : CGroup),
    List.Chain' (fun a b => keyOf a ≠ keyOf b) (compressLoop g rest) := by
  intro rest
  induction rest with
  | nil => intro g; simp [compressLoop]
  | cons r rest ih =>
    intro g
    simp only [compressLoop]
    split
    · exact ih (extendG g r)
    · rw [List.chain'_cons']
      refine ⟨?_, ih (openG r)⟩
      intro y hy
      have hk := compressLoop_head_key rest (openG r) y hy
      rw [hk]
      simp only [keyOf, openG]
      intro hcontra
      have h1 : g.currentEvent = r.event := congrArg Prod.fst hcontra
      have h2 : g.startBattery.isSome = r.battery.isSome := congrArg Prod.snd hcontra
      exact (by assumption : ¬(r.event = g.currentEvent ∧ r.battery.isSome = g.startBattery.isSome))
        ⟨h1.symm, h2.symm⟩

lemma compressGroups_chain (l : List CRec) :
    List.Chain' (fun a b => keyOf a ≠ keyOf b) (compressGroups l) := by
  cases l with
  | nil => simp [compressGroups]
  | cons r rest => exact compressLoop_chain rest (openG r)

lemma append_pct_ne_na (x : String) : x ++ "%" ≠ "N/A" := by
  intro hcontra
  obtain ⟨d⟩ := x
  have hd : (String.mk d ++ "%").data = "N/A".data := congrArg String.data hcontra
  have h1 : (String.mk d ++ "%").data = d ++ ['%'] := rfl
  rw [h1] at hd
  have h2 : (d ++ ['%']).getLast? = some '%' := List.getLast?_concat d
  rw [hd] at h2
  exact absurd h2 (by decide)

lemma emitRange_some_ne_na (s : Int) (eb : Option Int) : emitRange (some s) eb ≠ "N/A" := by
  cases eb with
  | none => exact append_pct_ne_na (toString s)
  | some e =>
    simp only [emitRange]
    split
    · exact append_pct_ne_na _
    · exact append_pct_ne_na _

/-- Claim C1 (corrected), counterexample to the original statement: on the
run `battery 50, 10, 50` of a single event the loop emits the single value
`"50%"` although the observed minimum 10 and maximum 50 differ, so the
claimed `"min% - max%"` reduction (here `"10% - 50%"`) is not produced and
the emitted value does not bound the observed battery 10 from below. -/
theorem batteryRange_not_minmax :
    compress [⟨0, "A", some 50⟩, ⟨1, "A", some 10⟩, ⟨2, "A", some 50⟩]
        = [⟨0, 2, "A", "50%"⟩] ∧
    (compressGroups [⟨0, "A", some 50⟩, ⟨1, "A", some 10⟩, ⟨2, "A", some 50⟩]).map
        (fun g => g.members.filterMap CRec.battery) = [[50, 10, 50]] ∧
    ("50%" : String) ≠ "10% - 50%" := by decide

/-- Claim C1 (amended): for every emitted interval, `battery_range` is
computed from the run's first battery value and last non-absent battery
value (not a min/max reduction): it is `"N/A"` exactly when no member of
the run carries a battery reading, and otherwise it is determined by the
first member's battery and the last observed battery via `emitRange`. -/
theorem batteryRange_from_first_and_last (l : List CRec) (g : CGroup)
    (hg : g ∈ compressGroups l) :
    ((emitG g).batteryLevel = "N/A" ↔ g.members.filterMap CRec.battery = []) ∧
    (emitG g).batteryLevel
      = emitRange (g.members.head?.bind CRec.battery)
          ((g.members.filterMap CRec.battery).getLast?) := by
  obtain ⟨h, t, hm, hev, hst, hsb, het, heb, hom⟩ := compressGroups_wf l g hg
  constructor
  · cases hb : h.battery with
    | none =>
      have hnil : g.members.filterMap CRec.battery = [] := by
        rw [List.filterMap_eq_nil_iff]
        intro a ha
        have := (hom a ha).2
        rw [hb] at this
        simpa using this
      have hna : (emitG g).batteryLevel = "N/A" := by
        show emitRange g.startBattery g.endBattery = "N/A"
        rw [hsb, hb]
        rfl
      exact ⟨fun _ => hnil, fun _ => hna⟩
    | some sb =>
      have hmem : sb ∈ g.members.filterMap CRec.battery := by
        rw [List.mem_filterMap]
        exact ⟨h, by rw [hm]; exact List.mem_cons_self _ _, hb⟩
      have hne : g.members.filterMap CRec.battery ≠ [] := by
        intro hx; rw [hx] at hmem; simp at hmem
      have hrange : (emitG g).batteryLevel ≠ "N/A" := by
        show emitRange g.startBattery g.endBattery ≠ "N/A"
        rw [hsb, hb]
        exact emitRange_some_ne_na sb g.endBattery
      exact ⟨fun hx => absurd hx hrange, fun hx => absurd hx hne⟩
  · show emitRange g.startBattery g.endBattery = _
    rw [heb]
    simp only [hm, List.head?_cons, Option.some_bind]
    rw [hsb]

def exC1 : List CRec := [⟨0, "A", some 50⟩, ⟨1, "A", some 10⟩]

def gC1 : CGroup := ⟨"A", 0, some 50, 1, some 10, exC1⟩

theorem batteryRange_from_first_and_last_witness :
    ((emitG gC1).batteryLevel = "N/A" ↔ gC1.members.filterMap CRec.battery = []) ∧
    (emitG gC1).batteryLevel
      = emitRange (gC1.members.head?.bind CRec.battery)
          ((gC1.members.filterMap CRec.battery).getLast?) :=
  batteryRange_from_first_and_last exC1 gC1 (by decide)

/-- Claim C2 (corrected), counterexample to the original statement: two
consecutive rows whose full event texts differ only in their battery
annotation yield two consecutive intervals with the same normalized event
(and the rows carry no device identifier at all), so consecutive emitted
intervals can share the claimed `(normalized_event, device_id)` key. -/
theorem consecutive_intervals_share_normalized_event :
    compress [⟨0, "USB Remove - Battery Level - 92%", some 92⟩,
              ⟨1, "USB Remove - Battery Level - 100%", some 100⟩]
      = [⟨0, 0, "USB Remove - Battery Level - 92%", "92%"⟩,
         ⟨1, 1, "USB Remove - Battery Level - 100%", "100%"⟩] ∧
    normalizeEvent "USB Remove - Battery Level - 92%" = "USB Remove" ∧
    normalizeEvent "USB Remove - Battery Level - 100%" = "USB Remove" := by decide

/-- Claim C2 (amended): the key the loop compares is the full event text
together with battery presence; no two consecutive emitted groups share
that key, and every member of a group matches the group's event text and
battery presence, so a change in either component (including battery
presence alone) starts a new interval. -/
theorem consecutive_groups_key_differ (l : List CRec) (g : CGroup)
    (hg : g ∈ compressGroups l) (r : CRec) (hr : r ∈ g.members) :
    List.Chain' (fun a b => keyOf a ≠ keyOf b) (compressGroups l) ∧
    r.event = g.currentEvent ∧ r.battery.isSome = g.startBattery.isSome := by
  obtain ⟨h, t, hm, hev, hst, hsb, _, _, hom⟩ := compressGroups_wf l g hg
  exact ⟨compressGroups_chain l, by rw [(hom r hr).1, hev], by rw [(hom r hr).2, hsb]⟩

def exC2 : List CRec := [⟨0, "A", some 1⟩, ⟨1, "B", none⟩]

def gC2 : CGroup := ⟨"A", 0, some 1, 0, some 1, [⟨0, "A", some 1⟩]⟩

theorem consecutive_groups_key_differ_witness :
    List.Chain' (fun a b => keyOf a ≠ keyOf b) (compressGroups exC2) ∧
    (⟨0, "A", some 1⟩ : CRec).event = gC2.currentEvent ∧
    (⟨0, "A", some 1⟩ : CRec).battery.isSome = gC2.startBattery.isSome :=
  consecutive_groups_key_differ exC2 gC2 (by decide) ⟨0, "A", some 1⟩ (by decide)

/-- Claim C3 (confirmed): on a chronologically sorted input, concatenating
the member-runs of the emitted groups in emission order reconstructs the
input (so every record belongs to exactly one emitted interval), every run
is non-empty, the groups appear in the chronological order of their first
members, and the empty input compresses to the empty output. -/
theorem compress_roundtrip (l : List CRec)
    (hs : l.Pairwise (fun a b => a.ts ≤ b.ts)) :
    ((compressGroups l).map CGroup.members).flatten = l ∧
    (∀ g ∈ compressGroups l, g.members ≠ []) ∧
    ((compressGroups l).map CGroup.startTime).Pairwise (· ≤ ·) ∧
    compress ([] : List CRec) = [] := by
  refine ⟨compressGroups_flatten l, ?_, ?_, rfl⟩
  · intro g hg
    obtain ⟨h, t, hm, _⟩ := compressGroups_wf l g hg
    rw [hm]; simp
  · have hflat : ((compressGroups l).map CGroup.members).flatten.Pairwise
        (fun a b => a.ts ≤ b.ts) := by
      rw [compressGroups_flatten l]; exact hs
    have hpw := (List.pairwise_flatten.mp hflat).2
    rw [List.pairwise_map] at hpw
    rw [List.pairwise_map]
    refine hpw.imp_of_mem ?_
    intro g1 g2 hg1 hg2 hrel
    obtain ⟨h1, t1, hm1, _, hst1, _⟩ := compressGroups_wf l g1 hg1
    obtain ⟨h2, t2, hm2, _, hst2, _⟩ := compressGroups_wf l g2 hg2
    have hts := hrel h1 (by rw [hm1]; exact List.mem_cons_self _ _)
      h2 (by rw [hm2]; exact List.mem_cons_self _ _)
    rw [hst1, hst2]; exact hts

def exC3 : List CRec := [⟨0, "A", some 5⟩, ⟨1, "B", none⟩]

theorem compress_roundtrip_witness :
    ((compressGroups exC3).map CGroup.members).flatten = exC3 ∧
    (∀ g ∈ compressGroups exC3, g.members ≠ []) ∧
    ((compressGroups exC3).map CGroup.startTime).Pairwise (· ≤ ·) ∧
    compress ([] : List CRec) = [] :=
  compress_roundtrip exC3 (by decide)

/-- Claim C7 (corrected), counterexample to the original statement: the
runs `92, 100` and `100, 92` observe the same set of battery values but
produce different `battery_range` strings, so the range is not a function
of the set of observed values. -/
theorem batteryRange_order_dependent :
    compress [⟨0, "A", some 92⟩, ⟨1, "A", some 100⟩] = [⟨0, 1, "A", "92% - 100%"⟩] ∧
    compress [⟨0, "A", some 100⟩, ⟨1, "A", some 92⟩] = [⟨0, 1, "A", "100% - 92%"⟩] ∧
    ("92% - 100%" : String) ≠ "100% - 92%" := by decide

/-- Claim C7 (amended): an emitted interval's `battery_range` depends only
on the run's first battery value and last non-absent battery value: any two
runs (from any inputs) agreeing on those two observations get the same
`battery_range`, so permuting a run's battery values preserves the range
exactly when the first and last observations are fixed. -/
theorem batteryRange_from_endpoints_only (l1 l2 : List CRec) (g1 g2 : CGroup)
    (h1 : g1 ∈ compressGroups l1) (h2 : g2 ∈ compressGroups l2)
    (hfst : g1.members.head?.bind CRec.battery = g2.members.head?.bind CRec.battery)
    (hlst : (g1.members.filterMap CRec.battery).getLast?
      = (g2.members.filterMap CRec.battery).getLast?) :
    (emitG g1).batteryLevel = (emitG g2).batteryLevel := by
  obtain ⟨a1, t1, hm1, _, _, hsb1, _, heb1, _⟩ := compressGroups_wf l1 g1 h1
  obtain ⟨a2, t2, hm2, _, _, hsb2, _, heb2, _⟩ := compressGroups_wf l2 g2 h2
  show emitRange g1.startBattery g1.endBattery = emitRange g2.startBattery g2.endBattery
  have e1 : g1.startBattery = g2.startBattery := by
    rw [hsb1, hsb2]
    have hh := hfst
    rw [hm1, hm2] at hh
    simpa using hh
  have e2 : g1.endBattery = g2.endBattery := by rw [← heb1, ← heb2]; exact hlst
  rw [e1, e2]

def exC7a : List CRec := [⟨0, "A", some 3⟩]

def exC7b : List CRec := [⟨5, "A", some 3⟩]

def gC7a : CGroup := ⟨"A", 0, some 3, 0, some 3, [⟨0, "A", some 3⟩]⟩

def gC7b : CGroup := ⟨"A", 5, some 3, 5, some 3, [⟨5, "A", some 3⟩]⟩

theorem batteryRange_from_endpoints_only_witness :
    (emitG gC7a).batteryLevel = (emitG gC7b).batteryLevel :=
  batteryRange_from_endpoints_only exC7a exC7b gC7a gC7b
    (by decide) (by decide) (by decide) (by decide)

/-- Claim C8 (confirmed): battery presence is homogeneous across every
emitted run, because the extension guard compares the row's battery
presence with the open group's. -/
theorem group_battery_presence_homogeneous (l : List CRec) (g : CGroup)
    (hg : g ∈ compressGroups l) :
    (∀ r ∈ g.members, r.battery.isSome = true) ∨
    (∀ r ∈ g.members, r.battery.isSome = false) := by
  obtain ⟨h, t, hm, _, _, _, _, _, hom⟩ := compressGroups_wf l g hg
  cases hb : h.battery.isSome with
  | true => exact Or.inl (fun r hr => by rw [(hom r hr).2, hb])
  | false => exact Or.inr (fun r hr => by rw [(hom r hr).2, hb])

def exC8 : List CRec := [⟨0, "A", some 2⟩, ⟨1, "A", some 9⟩]

def gC8 : CGroup := ⟨"A", 0, some 2, 1, some 9, exC8⟩

theorem group_battery_presence_homogeneous_witness :
    (∀ r ∈ gC8.members, r.battery.isSome = true) ∨
    (∀ r ∈ gC8.members, r.battery.isSome = false) :=
  group_battery_presence_homogeneous exC8 gC8 (by decide)

/-- Claim C4 (confirmed): a line that is empty after trimming, has no `#`,
or whose timestamp field fails the strict parse is skipped (`none`); a
skipped line contributes nothing and leaves the rest of the batch to be
processed; and when every line of every file is unparsable the accumulated
record sequence is empty.  (The parser is a total function into `Option`,
which is the model of the source's fail-soft `try`/`except`.) -/
theorem parse_failures_are_skipped :
    (∀ line filename : String, (trimS line).data = [] →
      parseLine line filename = none) ∧
    (∀ line filename : String, (trimS line).data.contains '#' = false →
      parseLine line filename = none) ∧
    (∀ line filename : String, parseTimestamp (tsStrOf (trimS line)) = none →
      parseLine line filename = none) ∧
    (∀ (l : String) (rest : List String) (filename : String),
      parseLine l filename = none →
      parseLines (l :: rest) filename = parseLines rest filename) ∧
    (∀ files : List (List String × String),
      (∀ p ∈ files, ∀ l ∈ p.1, parseLine l p.2 = none) → parseFiles files = []) := by
  refine ⟨?_, ?_, ?_, ?_, ?_⟩
  · intro line filename h
    simp [parseLine, h]
  · intro line filename h
    simp only [parseLine]
    split
    · rfl
    · rename_i hcond
      exact absurd
        (by rw [h] ; simp :
          ((trimS line).data.isEmpty || !((trimS line).data.contains '#')) = true)
        hcond
  · intro line filename h
    simp only [parseLine]
    split
    · rfl
    · rw [h]
  · intro l rest filename h
    simp [parseLines, List.filterMap_cons, h]
  · intro files hall
    induction files with
    | nil => rfl
    | cons p ps ih =>
      have h1 : parseLines p.1 p.2 = [] := by
        rw [parseLines, List.filterMap_eq_nil_iff]
        intro a ha
        exact hall p (List.mem_cons_self _ _) a ha
      have h2 := ih (fun q hq l hl => hall q (List.mem_cons_of_mem _ hq) l hl)
      simp only [parseFiles, List.map_cons, List.flatten_cons, h1, List.nil_append]
      simpa only [parseFiles] using h2

theorem parse_failures_are_skipped_witness :
    parseLine "   " "f.txt" = none ∧
    parseLine "no hash 2025" "f.txt" = none ∧
    parseLine "bad #ID:000000-000000 #Power On" "f.txt" = none ∧
    parseLines ["junk line", "2025-09-08 07:10:31 #ID:007120-000000 #Power On"] "f.txt"
      = parseLines ["2025-09-08 07:10:31 #ID:007120-000000 #Power On"] "f.txt" ∧
    parseFiles [(["", "oops"], "f.txt")] = [] := by
  refine ⟨?_, ?_, ?_, ?_, ?_⟩
  · exact parse_failures_are_skipped.1 "   " "f.txt" (by decide)
  · exact parse_failures_are_skipped.2.1 "no hash 2025" "f.txt" (by decide)
  · exact parse_failures_are_skipped.2.2.1 "bad #ID:000000-000000 #Power On" "f.txt" (by decide)
  · exact parse_failures_are_skipped.2.2.2.1 "junk line" _ "f.txt"
      (parse_failures_are_skipped.2.2.1 "junk line" "f.txt" (by decide))
  · exact parse_failures_are_skipped.2.2.2.2 _ (by decide)

/-- Claim C5 (confirmed): Scenario A.  The sample line parses, for any
filename hint, to the record with timestamp 2025-09-08 07:10:31,
normalized event `"USB Remove"`, battery 100 and device id `"007120"`
(the `#ID:` field wins, so the hint is irrelevant). -/
theorem scenario_a_parse (hint : String) :
    parseLine "2025-09-08 07:10:31 #ID:007120-000000 #USB Remove - Battery Level -  100%" hint
      = some ⟨⟨2025, 9, 8, 7, 10, 31⟩, "USB Remove - Battery Level -  100%",
          "USB Remove", some 100, "007120"⟩ := rfl

/-- Claim C6 (corrected), counterexample to the original statement: the
battery value is parsed with no upper bound, so a line announcing
`Battery Level - 250%` parses to a record whose battery is 250, above the
claimed bound of 100. -/
theorem battery_can_exceed_100 :
    parseLine "2025-09-08 07:10:31 #ID:007120-000000 #X - Battery Level - 250%" "log.txt"
      = some ⟨⟨2025, 9, 8, 7, 10, 31⟩, "X - Battery Level - 250%", "X", some 250, "007120"⟩ ∧
    ¬(250 ≤ 100) := by decide

/-- Claim C6 (amended): for every successfully parsed line, the battery
field is exactly the value of the digit-run extraction on the event text:
when present it is the numeric value of a non-empty all-digit string (hence
a nonnegative integer, with no cap at 100), and non-digit content after
`Battery Level -` yields an absent battery rather than an error. -/
theorem battery_digits_characterization (line filename : String) (r : EventRecord)
    (hp : parseLine line filename = some r) :
    r.battery = batteryOf r.event ∧
    (∀ b, batteryOf r.event = some b →
      (batStrOf r.event).data ≠ [] ∧ (batStrOf r.event).data.all Char.isDigit = true ∧
      b = digitsToNat (batStrOf r.event).data) ∧
    ((batStrOf r.event).data.all Char.isDigit = false → batteryOf r.event = none) := by
  have h1 : r.battery = batteryOf r.event := by
    simp only [parseLine] at hp
    split at hp
    · exact absurd hp (by simp)
    · split at hp
      · exact absurd hp (by simp)
      · injection hp with h2
        subst h2
        rfl
  refine ⟨h1, ?_, ?_⟩
  · intro b hb
    simp only [batteryOf] at hb
    split at hb
    · split at hb
      · rename_i hcond
        injection hb with hb2
        exact ⟨hcond.1, hcond.2, hb2.symm⟩
      · exact absurd hb (by simp)
    · exact absurd hb (by simp)
  · intro hd
    simp only [batteryOf]
    split
    · split
      · rename_i hcond
        rw [hd] at hcond
        exact absurd hcond.2 (by simp)
      · rfl
    · rfl

def lineC6 : String := "2025-09-08 07:10:31 #ID:007120-000000 #Power On - Battery Level - 88%"

def recC6 : EventRecord :=
  ⟨⟨2025, 9, 8, 7, 10, 31⟩, "Power On - Battery Level - 88%", "Power On", some 88, "007120"⟩

theorem battery_digits_characterization_witness :
    recC6.battery = batteryOf recC6.event ∧
    (∀ b, batteryOf recC6.event = some b →
      (batStrOf recC6.event).data ≠ [] ∧ (batStrOf recC6.event).data.all Char.isDigit = true ∧
      b = digitsToNat (batStrOf recC6.event).data) ∧
    ((batStrOf recC6.event).data.all Char.isDigit = false → batteryOf recC6.event = none) :=
  battery_digits_characterization lineC6 "f.txt" recC6 (by decide)

/-!
The Alerts Table grouping loop (main script, lines 274-287).  Its rows are
the filtered dataframe's `normalized_event`, `timestamp` and `battery`
columns; timestamps are modelled as seconds (an integer), since the loop
only compares `(row['timestamp'] - end_time).total_seconds()` with 300.
The loop runs with no surrounding `try`, so a raising expression is
modelled as `none` for the whole computation.
-/

/-- One row as the alerts loop reads it (`normalized_event`, timestamp in
seconds, optional battery). -/
structure ARec where
  ts : Int
  event : String
  battery : Option Nat
deriving DecidableEq, Repr

/-- The `current_group` dict of line 278. -/
structure AGroup where
  event : String
  startTime : Int
  endTime : Int
  batteryRange : String
deriving DecidableEq, Repr

/-- Line 274: `str.contains('Low Battery|Error')` on `normalized_event`. -/
def alertFilter (l : List ARec) : List ARec :=
  l.filter (fun r => containsS r.event "Low Battery" || containsS r.event "Error")

/-- Python `float(...)` on the battery-range fragments this loop feeds it:
it succeeds on whitespace-padded digit strings (the only well-formed case
that arises), and raising is modelled as `none`. -/
def pyFloat? (s : String) : Option Nat :=
  if (trimS s).data ≠ [] ∧ (trimS s).data.all Char.isDigit then
    some (digitsToNat (trimS s).data)
  else none

/-- Lines 278 and 286: open an alert group; `int(row['battery'])` raises
when the battery is absent (a pandas `NaN`). -/
def mkGroup (r : ARec) : Option AGroup :=
  match r.battery with
  | some b => some ⟨r.event, r.ts, r.ts, toString b ++ "%"⟩
  | none => none

/-- Lines 282-283: merge a row into the current group.  The previous
minimum is re-parsed from `battery_range.split('%')[0]`; the previous
maximum from `split('%')[1].split('-')[0]` when the range already contains
a `-`, else from `split('%')[0]`.  Python's two-argument `min`/`max`
return their first argument when the second is `nan`, so an absent battery
leaves both endpoints unchanged. -/
def mergeGroup (g : AGroup) (r : ARec) : Option AGroup :=
  match pyFloat? ((splitOnS g.batteryRange "%").headI),
      pyFloat? (if g.batteryRange.data.contains '-' then
          (splitOnS ((splitOnS g.batteryRange "%").getD 1 "") "-").headI
        else (splitOnS g.batteryRange "%").headI) with
  | some mn, some mx =>
    some { g with
      endTime := r.ts
      batteryRange :=
        toString (match r.battery with | some b => min mn b | none => mn) ++ "% - " ++
        toString (match r.battery with | some b => max mx b | none => mx) ++ "%" }
  | _, _ => none

/-- The loop of lines 279-286 plus the final `append` of line 287. -/
def alertLoop : List AGroup → AGroup → List ARec → Option (List AGroup)
  | closed, cur, [] => some (closed ++ [cur])
  | closed, cur, r :: rest =>
    if r.event = cur.event ∧ r.ts - cur.endTime < 300 then
      match mergeGroup cur r with
      | some g => alertLoop closed g rest
      | none => none
    else
      match mkGroup r with
      | some g => alertLoop (closed ++ [cur]) g rest
      | none => none

/-- Lines 275-287: the Alerts Table rows; an empty filtered frame yields
no groups (the `else` of line 295). -/
def alertGroups : List ARec → Option (List AGroup)
  | [] => some []
  | r :: rest =>
    match mkGroup r with
    | some g => alertLoop [] g rest
    | none => none

lemma alertLoop_prefix : ∀ (rest : List ARec) (closed : List AGroup) (cur : AGroup)
    (res : List AGroup), alertLoop closed cur rest = some res → ∃ t, res = closed ++ t := by
  intro rest
  induction rest with
  | nil =>
    intro closed cur res h
    simp only [alertLoop, Option.some.injEq] at h
    exact ⟨[cur], h.symm⟩
  | cons r rest ih =>
    intro closed cur res h
    simp only [alertLoop] at h
    split at h
    · split at h
      · exact ih closed _ res h
      · exact absurd h (by simp)
    · split at h
      · obtain ⟨t, ht⟩ := ih (closed ++ [cur]) _ res h
        exact ⟨cur :: t, by rw [ht, List.append_assoc]; rfl⟩
      · exact absurd h (by simp)

/-- Claim C9 (confirmed): a row is merged into the current alert group
exactly under the guard `same normalized_event and gap < 300 seconds`; with
a gap of at least 300 seconds the current group is closed and a fresh group
is opened from the row (even when the events are identical), so whenever
the loop succeeds the former current group appears as its own output row. -/
theorem alert_merge_threshold (closed : List AGroup) (cur : AGroup) (r : ARec)
    (rest : List ARec) :
    (r.event = cur.event ∧ r.ts - cur.endTime < 300 →
      alertLoop closed cur (r :: rest)
        = match mergeGroup cur r with
          | some g => alertLoop closed g rest
          | none => none) ∧
    (300 ≤ r.ts - cur.endTime →
      (alertLoop closed cur (r :: rest)
        = match mkGroup r with
          | some g => alertLoop (closed ++ [cur]) g rest
          | none => none) ∧
      ∀ res, alertLoop closed cur (r :: rest) = some res → ∃ t, res = closed ++ cur :: t) := by
  constructor
  · intro h
    simp only [alertLoop, if_pos h]
  · intro h300
    have hneg : ¬(r.event = cur.event ∧ r.ts - cur.endTime < 300) := by
      rintro ⟨-, hlt⟩
      exact absurd hlt (not_lt.mpr h300)
    constructor
    · simp only [alertLoop, if_neg hneg]
    · intro res hres
      simp only [alertLoop, if_neg hneg] at hres
      split at hres
      · obtain ⟨t, ht⟩ := alertLoop_prefix rest (closed ++ [cur]) _ res hres
        exact ⟨t, by rw [ht, List.append_assoc]; rfl⟩
      · exact absurd hres (by simp)

def gC9 : AGroup := ⟨"Low Battery", 0, 0, "50%"⟩

def rC9 : ARec := ⟨400, "Low Battery", some 40⟩

theorem alert_merge_threshold_witness :
    (300 ≤ rC9.ts - gC9.endTime) ∧
    ∃ t, ([gC9, ⟨"Low Battery", 400, 400, "40%"⟩] : List AGroup) = [] ++ gC9 :: t :=
  ⟨by decide,
    ((alert_merge_threshold [] gC9 rC9 []).2 (by decide)).2
      [gC9, ⟨"Low Battery", 400, 400, "40%"⟩] (by decide)⟩

def exC10 : List ARec :=
  [⟨0, "Low Battery", some 50⟩, ⟨60, "Low Battery", some 40⟩, ⟨120, "Low Battery", some 30⟩]

/-- Claim C10 (code_bug): the claim matches the loop's evident intent, but
the code crashes even when every alert row carries a battery value: on the
second merge into a group the range string is `"min% - max%"`, and
`split('%')[1].split('-')[0]` is the single space before the dash, so
`float(' ')` raises.  Three same-event rows within 300 seconds of each
other, all with batteries, make the whole grouping raise, and a single
row with an absent battery also raises as the claim's necessity direction
states. -/
theorem alert_groups_crash_on_third_merge :
    alertGroups (alertFilter exC10) = none ∧
    (∀ r ∈ exC10, r.battery.isSome = true) ∧
    alertGroups (alertFilter [⟨0, "Low Battery", none⟩]) = none := by decide
